import Mathlib

/-!
Verification development for the `raytracer-cpp` repository.

The C++ core (`raytrace.hpp`, `primitives.hpp`, scene driver) is shallowly
embedded here: machine floats become exact rationals (`ℚ`), the float value
`infinity` used for upper ray bounds becomes `⊤ : WithTop ℚ`, and the two
irrational primitives the code relies on (`std::sqrt`, `std::pow`) are
abstracted into an explicit `NumOps` record, since none of the verified
properties depend on their values.  Shapes (the `Sphere`/`Plane` subclasses
live behind the `Shape` interface in the C++ code) are represented by the
interface the raytracing core consumes: a list of intersection roots per
ray, a surface normal per point, and a material.
-/

namespace RaytracerCpp

/-- Abstract numeric primitives used by the embedding: `sqrt` stands for
`std::sqrt` and `pow` for `std::pow`.  They are parameters of the model;
theorems that need a property of them (for instance that the square root of
the discriminant squares back to the discriminant) take it as a hypothesis. -/
structure NumOps where
  sqrt : ℚ → ℚ
  pow : ℚ → ℚ → ℚ

/-- `vec::Vec3f`, with exact rational components. -/
structure Vec3 where
  x : ℚ
  y : ℚ
  z : ℚ
deriving DecidableEq

instance : Add Vec3 := ⟨fun a b => ⟨a.x + b.x, a.y + b.y, a.z + b.z⟩⟩

instance : Sub Vec3 := ⟨fun a b => ⟨a.x - b.x, a.y - b.y, a.z - b.z⟩⟩

instance : Neg Vec3 := ⟨fun a => ⟨-a.x, -a.y, -a.z⟩⟩

instance : SMul ℚ Vec3 := ⟨fun c a => ⟨c * a.x, c * a.y, c * a.z⟩⟩

/-- `vec::dot`. -/
def dot (a b : Vec3) : ℚ := a.x * b.x + a.y * b.y + a.z * b.z

/-- Modelled from the spec: the `vec` submodule (not part of this repo's
sources) provides the Euclidean norm `v.euclidean()` (spec section 3,
"Vector3 ... Euclidean norm"). -/
def euclidean (ops : NumOps) (v : Vec3) : ℚ := ops.sqrt (dot v v)

/-- Modelled from the spec: `v.normalize()` from the external `vec`
submodule — the vector scaled by the reciprocal of its Euclidean norm
(spec section 3, "Vector3 ... normalization"). -/
def normalize (ops : NumOps) (v : Vec3) : Vec3 := (1 / euclidean ops v) • v

/-- Modelled from the spec: `project_onto_unit(v, u)` from the external
`vec` submodule — the projection of `v` onto the unit-length vector `u`. -/
def project_onto_unit (v u : Vec3) : Vec3 := dot v u • u

/-- `reflect_across_normal` from `raytrace.hpp`: reflect a vector across a
unit-length normal. -/
def reflect_across_normal (ray_vector normal : Vec3) : Vec3 :=
  (2 : ℚ) • project_onto_unit ray_vector normal - ray_vector

/-- `sf::Color` restricted to its r/g/b channels (the code never uses the
alpha channel in its color arithmetic). -/
structure Color where
  r : ℕ
  g : ℕ
  b : ℕ
deriving DecidableEq

/-- `sf::Color::operator+` saturates each channel at 255. -/
instance : Add Color :=
  ⟨fun a b => ⟨min (a.r + b.r) 255, min (a.g + b.g) 255, min (a.b + b.b) 255⟩⟩

/-- `sf::Color::White`. -/
def whiteColor : Color := ⟨255, 255, 255⟩

/-- `sf::Color{}` — the default-constructed color, black. -/
def blackColor : Color := ⟨0, 0, 0⟩

/-- `static_cast<int>` on a float: truncation toward zero. -/
def cppIntCast (q : ℚ) : ℤ := if q < 0 then ⌈q⌉ else ⌊q⌋

/-- `std::clamp(static_cast<int>(q), 0, 255)`, converted back to a channel. -/
def clampChannel (q : ℚ) : ℕ := (min (max (cppIntCast q) 0) 255).toNat

/-- `scale_color` from `raytrace.hpp`: scale each channel by the intensity,
with saturation at the 0..255 channel bounds. -/
def scale_color (color : Color) (intensity : ℚ) : Color :=
  ⟨clampChannel ((color.r : ℚ) * intensity),
   clampChannel ((color.g : ℚ) * intensity),
   clampChannel ((color.b : ℚ) * intensity)⟩

/-- The `Material` carried by every shape (color, specularity exponent,
reflectivity, transparency, refractivity). -/
structure Material where
  color : Color
  specularity : ℚ
  reflectivity : ℚ
  transparency : ℚ
  refractivity : ℚ

/-- `Ray`: an origin point and a (not necessarily unit) direction vector. -/
structure Ray where
  point : Vec3
  vector : Vec3

/-- `Ray::calc_point`: `origin + t · direction`. -/
def Ray.calc_point (r : Ray) (t : ℚ) : Vec3 := r.point + t • r.vector

/-- The `Shape` interface consumed by the raytracing core: intersection
roots for a ray (`calc_ray_intersect`, zero/one/two values in the C++
variants, here any finite list), the surface normal at a point
(`calc_normal`), and the material.  The concrete `Sphere`/`Plane` geometry
is irrelevant to — and quantified away by — the search-level claims. -/
structure Shape where
  intersect : Ray → List ℚ
  normalAt : Vec3 → Vec3
  material : Material

/-- `Light::Type`. -/
inductive LightType where
  | kAmbient
  | kPoint
  | kDirectional
deriving DecidableEq

/-- `Light`: type tag, intensity, and (depending on the type) a position
or a direction. -/
structure Light where
  type : LightType
  intensity : ℚ
  position : Vec3
  direction : Vec3

/-- `kEpsilon = 0.001F`. -/
def kEpsilon : ℚ := 1 / 1000

/-- `kMaxRecursionDepth = 3U` (most complete variant of `raytrace.hpp`). -/
def kMaxRecursionDepth : ℕ := 3

/-- The range check `(t > t_min) && (t < t_max)` from
`calc_ray_shape_intersect`; `t_max` may be the float `infinity`, modelled
as `⊤`. -/
def inRange (tmin : ℚ) (tmax : WithTop ℚ) (t : ℚ) : Prop :=
  tmin < t ∧ (t : WithTop ℚ) < tmax

instance (tmin : ℚ) (tmax : WithTop ℚ) (t : ℚ) : Decidable (inRange tmin tmax t) := by
  unfold inRange; infer_instance

/-- The running `closest_t` of `calc_ray_shape_intersect`, initialised to
`std::numeric_limits<float>::infinity()` (state `none`). -/
def closestT : Option (ℚ × Shape) → WithTop ℚ
  | none => ⊤
  | some (ct, _) => (ct : WithTop ℚ)

/-- The inner loop of `calc_ray_shape_intersect` over one shape's
intersection roots.  In closest mode an in-range root replaces the state
when it beats `closest_t`; in any mode the first in-range root is taken
and the loop over this shape's remaining roots `break`s. -/
def scanRoots (find_closest : Bool) (tmin : ℚ) (tmax : WithTop ℚ) (sh : Shape) :
    List ℚ → Option (ℚ × Shape) → Option (ℚ × Shape)
  | [], st => st
  | t :: ts, st =>
    if inRange tmin tmax t then
      if find_closest then
        scanRoots find_closest tmin tmax sh ts
          (if (t : WithTop ℚ) < closestT st then some (t, sh) else st)
      else
        some (t, sh)
    else
      scanRoots find_closest tmin tmax sh ts st

/-- The outer loop of `find_closest_shape` over one collection of shapes
(the state — `closest_t`, `closest_shape` — is threaded through). -/
def scanShapes (find_closest : Bool) (tmin : ℚ) (tmax : WithTop ℚ) (ray : Ray)
    (shapes : List Shape) (st : Option (ℚ × Shape)) : Option (ℚ × Shape) :=
  shapes.foldl (fun acc sh => scanRoots find_closest tmin tmax sh (sh.intersect ray) acc) st

/-- `calc_ray_shape_intersect` from `raytrace.hpp`: scan the sphere
collection, then the plane collection, with shared state; return the
recorded `(t, shape)` pair if any root qualified. -/
def calc_ray_shape_intersect (spheres planes : List Shape) (ray : Ray)
    (tmin : ℚ) (tmax : WithTop ℚ) (find_closest : Bool) : Option (ℚ × Shape) :=
  scanShapes find_closest tmin tmax ray planes
    (scanShapes find_closest tmin tmax ray spheres none)

/-- The observable effect of one any-mode outer-loop step, written with
`List.find?`: the first in-range root of each scanned shape overwrites the
state (the `break` in the C++ code exits only the loop over that shape's
roots, so later shapes are still scanned). -/
def any_mode_last_hit (tmin : ℚ) (tmax : WithTop ℚ) (ray : Ray)
    (shapes : List Shape) : Option (ℚ × Shape) :=
  shapes.foldl
    (fun acc sh =>
      match (sh.intersect ray).find? (fun t => decide (inRange tmin tmax t)) with
      | some t => some (t, sh)
      | none => acc)
    none

/-- Modelled from the spec: section 4.2, mode any — "accept the first
qualifying root and stop scanning immediately".  The function returns as
soon as any shape yields a qualifying root; no later shape is examined. -/
def spec_any_first_hit (tmin : ℚ) (tmax : WithTop ℚ) (ray : Ray) :
    List Shape → Option (ℚ × Shape)
  | [] => none
  | sh :: rest =>
    match (sh.intersect ray).find? (fun t => decide (inRange tmin tmax t)) with
    | some t => some (t, sh)
    | none => spec_any_first_hit tmin tmax ray rest

/-- The light direction used by `compute_lighting`: the stored direction
for directional lights, `light.position - point` for point lights. -/
def light_direction (l : Light) (point : Vec3) : Vec3 :=
  if l.type = LightType.kDirectional then l.direction else l.position - point

/-- The occlusion bound used by `compute_lighting`: `infinity` for
directional lights, `1.0F` for point lights. -/
def light_max_t (l : Light) : WithTop ℚ :=
  if l.type = LightType.kDirectional then ⊤ else ((1 : ℚ) : WithTop ℚ)

/-- The amount a single light adds to the running intensity in the loop
body of `compute_lighting`: ambient lights add their intensity directly;
other lights add nothing when the any-mode occlusion probe over
`(kEpsilon, max_t_occlusion)` hits a shape, and otherwise add their
diffuse term (guarded by `dot(normal, direction) > 0`) plus their specular
term (guarded by `specularity > 0` and `dot(reflection, -ray) > 0`). -/
def light_contribution (ops : NumOps) (spheres planes : List Shape)
    (point normal ray : Vec3) (specularity : ℚ) (l : Light) : ℚ :=
  if l.type = LightType.kAmbient then l.intensity
  else
    let direction := light_direction l point
    let max_t_occlusion := light_max_t l
    if (calc_ray_shape_intersect spheres planes ⟨point, direction⟩ kEpsilon
          max_t_occlusion false).isSome then 0
    else
      let normal_dot_direction := dot normal direction
      let diffuse :=
        if 0 < normal_dot_direction then
          l.intensity * normal_dot_direction / (euclidean ops normal * euclidean ops direction)
        else 0
      let specular :=
        if 0 < specularity then
          let reflection := reflect_across_normal direction normal
          let reflection_dot_ray := dot reflection (-ray)
          if 0 < reflection_dot_ray then
            l.intensity *
              ops.pow (reflection_dot_ray / (euclidean ops reflection * euclidean ops ray))
                specularity
          else 0
        else 0
      diffuse + specular

/-- `compute_lighting` from `raytrace.hpp`: accumulate each light's
contribution over the scene's light list, starting from `0.0F`. -/
def compute_lighting (ops : NumOps) (spheres planes : List Shape) (lights : List Light)
    (point normal ray : Vec3) (specularity : ℚ) : ℚ :=
  lights.foldl
    (fun intensity l =>
      intensity + light_contribution ops spheres planes point normal ray specularity l)
    0

/-- The normalized arrival vector of `calc_refraction_vector`:
`-incoming.normalize()`. -/
def refraction_arrival_unit (ops : NumOps) (incoming : Vec3) : Vec3 :=
  -(normalize ops incoming)

/-- `entering_shape` in `calc_refraction_vector`: whether the light enters
the object, `dot(normal, incoming) < 0`. -/
def refraction_entering (incoming normal : Vec3) : Bool :=
  decide (dot normal incoming < 0)

/-- The sign-adjusted normalized normal of `calc_refraction_vector`. -/
def refraction_normal_unit (ops : NumOps) (incoming normal : Vec3) : Vec3 :=
  if refraction_entering incoming normal then normalize ops normal
  else -(normalize ops normal)

/-- `refractive_ratio` in `calc_refraction_vector`: `1/(1+refractivity)`
when entering the shape, `1+refractivity` when exiting. -/
def refraction_ratio (incoming normal : Vec3) (refractivity : ℚ) : ℚ :=
  if refraction_entering incoming normal then 1 / (1 + refractivity)
  else 1 + refractivity

/-- `in_radical` in `calc_refraction_vector`:
`1 - ratio² · (1 - cos²θ)` with `cos θ = dot(normal_unit, arrival_unit)`. -/
def refraction_radicand (ops : NumOps) (incoming normal : Vec3) (refractivity : ℚ) : ℚ :=
  let normal_dot_arrival :=
    dot (refraction_normal_unit ops incoming normal) (refraction_arrival_unit ops incoming)
  1 - refraction_ratio incoming normal refractivity * refraction_ratio incoming normal refractivity
        * (1 - normal_dot_arrival * normal_dot_arrival)

/-- `calc_refraction_vector` from `raytrace.hpp`. -/
def calc_refraction_vector (ops : NumOps) (incoming normal : Vec3) (refractivity : ℚ) : Vec3 :=
  if refractivity ≤ 0 then incoming
  else
    let arrival_unit := refraction_arrival_unit ops incoming
    let normal_unit := refraction_normal_unit ops incoming normal
    let refractive_ratio := refraction_ratio incoming normal refractivity
    let normal_dot_arrival := dot normal_unit arrival_unit
    let in_radical := refraction_radicand ops incoming normal refractivity
    if in_radical < 0 then
      reflect_across_normal arrival_unit normal_unit
    else
      let radical := ops.sqrt in_radical
      let first := (refractive_ratio * normal_dot_arrival - radical) • normal_unit
      let second := (-refractive_ratio) • arrival_unit
      first + second

/-- The global scene tables (`kSceneSpheres`, `kScenePlanes`,
`kSceneLights`) together with the abstract numeric primitives, bundled as
one read-only environment. -/
structure SceneEnv where
  ops : NumOps
  spheres : List Shape
  planes : List Shape
  lights : List Light

/-- `trace_ray` from `raytrace.hpp`: closest-mode intersection search; on
a miss, the fixed background color (`sf::Color::White`); on a hit, the
material color scaled by `1 - reflectivity - transparency`, blended with
the recursively traced reflected and transparent contributions (each
gated on `recursion_depth > 0` and a positive material weight), the whole
blend finally scaled by this level's lighting intensity. -/
def trace_ray (E : SceneEnv) (ray : Ray) (tmin : ℚ) (tmax : WithTop ℚ)
    (recursion_depth : ℕ) : Color :=
  match calc_ray_shape_intersect E.spheres E.planes ray tmin tmax true with
  | none => whiteColor
  | some (t, sh) =>
    let intersect_point := ray.calc_point t
    let normal := sh.normalAt intersect_point
    let material := sh.material
    let reflectivity := material.reflectivity
    let reflected_color_blend :=
      if h : 0 < recursion_depth ∧ 0 < reflectivity then
        scale_color
          (trace_ray E ⟨intersect_point, reflect_across_normal (-ray.vector) normal⟩
            (kEpsilon * t) ⊤ (recursion_depth - 1))
          reflectivity
      else blackColor
    let transparency := material.transparency
    let transparent_color_blend :=
      if h : 0 < recursion_depth ∧ 0 < transparency then
        scale_color
          (trace_ray E
            ⟨intersect_point, calc_refraction_vector E.ops ray.vector normal material.refractivity⟩
            kEpsilon ⊤ (recursion_depth - 1))
          transparency
      else blackColor
    let local_color_blend := scale_color material.color (1 - reflectivity - transparency)
    let blend := local_color_blend + reflected_color_blend + transparent_color_blend
    let light_intensity :=
      compute_lighting E.ops E.spheres E.planes E.lights intersect_point normal ray.vector
        material.specularity
    scale_color blend light_intensity
termination_by recursion_depth
decreasing_by
  all_goals exact Nat.sub_lt h.1 Nat.one_pos

/-- The `Sphere` of `primitives.hpp` (center, radius, color, specularity,
reflectiveness). -/
structure SphereP where
  center : Vec3
  radius : ℚ
  color : Color
  specularity : ℚ
  reflectiveness : ℚ

/-- The quadratic coefficient `a = dot(ray_vector, ray_vector)` of
`Sphere::calc_ray_intersect`. -/
def sphere_qa (ray_vector : Vec3) : ℚ := dot ray_vector ray_vector

/-- The quadratic coefficient `b = dot(c_p, ray_vector) * 2` of
`Sphere::calc_ray_intersect`, with `c_p = ray_point - center`. -/
def sphere_qb (s : SphereP) (ray_point ray_vector : Vec3) : ℚ :=
  dot (ray_point - s.center) ray_vector * 2

/-- The quadratic coefficient `c = dot(c_p, c_p) - r*r` of
`Sphere::calc_ray_intersect`. -/
def sphere_qc (s : SphereP) (ray_point : Vec3) : ℚ :=
  dot (ray_point - s.center) (ray_point - s.center) - s.radius * s.radius

/-- The discriminant `b*b - 4*a*c` of `Sphere::calc_ray_intersect`. -/
def sphere_discriminant (s : SphereP) (ray_point ray_vector : Vec3) : ℚ :=
  sphere_qb s ray_point ray_vector * sphere_qb s ray_point ray_vector
    - 4 * sphere_qa ray_vector * sphere_qc s ray_point

/-- `Sphere::calc_ray_intersect` from `primitives.hpp`: no intersection
for a negative discriminant, otherwise the pair of quadratic roots
`(-b ± sqrt(disc)) / (2a)`. -/
def SphereP.calc_ray_intersect (ops : NumOps) (s : SphereP)
    (ray_point ray_vector : Vec3) : Option (ℚ × ℚ) :=
  let discriminant := sphere_discriminant s ray_point ray_vector
  if discriminant < 0 then none
  else
    let disc_root := ops.sqrt discriminant
    some ((-sphere_qb s ray_point ray_vector + disc_root) / (2 * sphere_qa ray_vector),
          (-sphere_qb s ray_point ray_vector - disc_root) / (2 * sphere_qa ray_vector))

/-- `x_begin` for a worker segment in `update_canvas`:
`segment * (kCanvasWidth/num_segments) - (kCanvasWidth/2)`, with C++
integer division on the nonnegative width. -/
def seg_x_begin (width num_segments segment : ℕ) : ℤ :=
  (segment : ℤ) * ((width / num_segments : ℕ) : ℤ) - ((width / 2 : ℕ) : ℤ)

/-- `x_end` for a worker segment in `update_canvas`: the final segment
runs to `kCanvasWidth/2`, every other segment to the next segment's
begin column. -/
def seg_x_end (width num_segments segment : ℕ) : ℤ :=
  if segment = num_segments - 1 then ((width / 2 : ℕ) : ℤ)
  else ((segment : ℤ) + 1) * ((width / num_segments : ℕ) : ℤ) - ((width / 2 : ℕ) : ℤ)

/-- Column `x` is processed by the given worker segment
(`for (int x = x_begin; x < x_end; x++)`). -/
def seg_contains (width num_segments segment : ℕ) (x : ℤ) : Prop :=
  seg_x_begin width num_segments segment ≤ x ∧ x < seg_x_end width num_segments segment

/-! ### Concrete fixtures used by witnesses and counterexamples -/

/-- Dummy numeric primitives (square root constantly `1`): the verified
properties never depend on the values of `sqrt`/`pow`. -/
def wOps : NumOps := ⟨fun _ => 1, fun _ _ => 1⟩

/-- Numeric primitives whose square root is constantly `2` (correct for
the discriminant `4` arising in the sphere fixture). -/
def wOpsSqrtTwo : NumOps := ⟨fun _ => 2, fun _ _ => 1⟩

/-- An inert red material. -/
def wMaterial : Material := ⟨⟨255, 0, 0⟩, 0, 0, 0, 0⟩

/-- A shape whose intersection roots are `2` and `7` on every ray. -/
def wShapeA : Shape := ⟨fun _ => [2, 7], fun _ => ⟨0, 0, 1⟩, wMaterial⟩

/-- A shape whose single intersection root is `5` on every ray. -/
def wShapeB : Shape := ⟨fun _ => [5], fun _ => ⟨0, 0, 1⟩, wMaterial⟩

/-- A shape whose single intersection root is `2` on every ray. -/
def wShapeC : Shape := ⟨fun _ => [2], fun _ => ⟨0, 0, -1⟩, wMaterial⟩

/-- A shape blocking the segment towards a light: root `1/2` on every
ray, inside the occlusion window `(kEpsilon, 1)`. -/
def wBlocker : Shape := ⟨fun _ => [1 / 2], fun _ => ⟨0, 1, 0⟩, wMaterial⟩

/-- A concrete ray from the origin along `+z`. -/
def wRay : Ray := ⟨⟨0, 0, 0⟩, ⟨0, 0, 1⟩⟩

/-- A concrete ambient light of intensity `2/5`. -/
def wAmbient : Light := ⟨LightType.kAmbient, 2 / 5, ⟨0, 0, 0⟩, ⟨0, 0, 0⟩⟩

/-- A concrete point light of intensity `3/5` at `(0, 5, 0)`. -/
def wPoint : Light := ⟨LightType.kPoint, 3 / 5, ⟨0, 5, 0⟩, ⟨0, 0, 0⟩⟩

/-- A scene with no shapes and no lights. -/
def wEnvEmpty : SceneEnv := ⟨wOps, [], [], []⟩

/-- A scene with the single sphere-like shape `wShapeC`. -/
def wEnvHit : SceneEnv := ⟨wOps, [wShapeC], [], []⟩

/-- The concrete sphere at `(0,0,3)` of radius `1` from the spec's
end-to-end example. -/
def wSphere : SphereP := ⟨⟨0, 0, 3⟩, 1, ⟨255, 0, 0⟩, 0, 0⟩

/-- A concrete incoming vector for the refraction fixture. -/
def wIncoming : Vec3 := ⟨1, 0, 0⟩

/-- A concrete surface normal for the refraction fixture. -/
def wNormal : Vec3 := ⟨0, 1, 0⟩

/-! ### Component-wise evaluation lemmas for `Vec3` -/

@[simp] theorem Vec3.add_mk (a b : Vec3) : a + b = ⟨a.x + b.x, a.y + b.y, a.z + b.z⟩ := rfl

@[simp] theorem Vec3.sub_mk (a b : Vec3) : a - b = ⟨a.x - b.x, a.y - b.y, a.z - b.z⟩ := rfl

@[simp] theorem Vec3.neg_mk (a : Vec3) : -a = ⟨-a.x, -a.y, -a.z⟩ := rfl

@[simp] theorem Vec3.smul_mk (c : ℚ) (a : Vec3) : c • a = ⟨c * a.x, c * a.y, c * a.z⟩ := rfl

/-! ### Closest-mode search lemmas -/

/-- Any value produced by the closest-mode inner loop is either the
incoming state or an in-range root of the scanned shape. -/
theorem scanRoots_closest_origin (tmin : ℚ) (tmax : WithTop ℚ) (sh : Shape) :
    ∀ (ts : List ℚ) (st : Option (ℚ × Shape)),
      scanRoots true tmin tmax sh ts st = st ∨
        ∃ t ∈ ts, inRange tmin tmax t ∧ scanRoots true tmin tmax sh ts st = some (t, sh) := by
  intro ts
  induction ts with
  | nil => intro st; left; rfl
  | cons t ts ih =>
    intro st
    by_cases hr : inRange tmin tmax t
    · by_cases hb : (t : WithTop ℚ) < closestT st
      · rcases ih (some (t, sh)) with h | ⟨t2, ht2, hr2, h⟩
        · right
          exact ⟨t, List.mem_cons_self t ts, hr, by simp [scanRoots, hr, hb, h]⟩
        · right
          exact ⟨t2, List.mem_cons_of_mem t ht2, hr2, by simp [scanRoots, hr, hb, h]⟩
      · rcases ih st with h | ⟨t2, ht2, hr2, h⟩
        · left; simp [scanRoots, hr, hb, h]
        · right
          exact ⟨t2, List.mem_cons_of_mem t ht2, hr2, by simp [scanRoots, hr, hb, h]⟩
    · rcases ih st with h | ⟨t2, ht2, hr2, h⟩
      · left; simp [scanRoots, hr, h]
      · right
        exact ⟨t2, List.mem_cons_of_mem t ht2, hr2, by simp [scanRoots, hr, h]⟩

/-- The closest-mode inner loop never increases the recorded `closest_t`. -/
theorem scanRoots_closest_mono (tmin : ℚ) (tmax : WithTop ℚ) (sh : Shape) :
    ∀ (ts : List ℚ) (st : Option (ℚ × Shape)),
      closestT (scanRoots true tmin tmax sh ts st) ≤ closestT st := by
  intro ts
  induction ts with
  | nil => intro st; exact le_refl _
  | cons t ts ih =>
    intro st
    by_cases hr : inRange tmin tmax t
    · by_cases hb : (t : WithTop ℚ) < closestT st
      · calc closestT (scanRoots true tmin tmax sh (t :: ts) st)
            = closestT (scanRoots true tmin tmax sh ts (some (t, sh))) := by
              simp [scanRoots, hr, hb]
          _ ≤ closestT (some (t, sh)) := ih _
          _ ≤ closestT st := le_of_lt hb
      · calc closestT (scanRoots true tmin tmax sh (t :: ts) st)
            = closestT (scanRoots true tmin tmax sh ts st) := by simp [scanRoots, hr, hb]
          _ ≤ closestT st := ih st
    · calc closestT (scanRoots true tmin tmax sh (t :: ts) st)
          = closestT (scanRoots true tmin tmax sh ts st) := by simp [scanRoots, hr]
        _ ≤ closestT st := ih st

/-- After the closest-mode inner loop, the recorded `closest_t` is at most
every in-range root of the scanned list. -/
theorem scanRoots_closest_le (tmin : ℚ) (tmax : WithTop ℚ) (sh : Shape) :
    ∀ (ts : List ℚ) (st : Option (ℚ × Shape)) (t0 : ℚ), t0 ∈ ts → inRange tmin tmax t0 →
      closestT (scanRoots true tmin tmax sh ts st) ≤ (t0 : WithTop ℚ) := by
  intro ts
  induction ts with
  | nil => intro st t0 h; exact absurd h (List.not_mem_nil t0)
  | cons t ts ih =>
    intro st t0 hmem hr0
    rcases List.mem_cons.mp hmem with rfl | htail
    · by_cases hb : (t0 : WithTop ℚ) < closestT st
      · calc closestT (scanRoots true tmin tmax sh (t0 :: ts) st)
            = closestT (scanRoots true tmin tmax sh ts (some (t0, sh))) := by
              simp [scanRoots, hr0, hb]
          _ ≤ closestT (some (t0, sh)) := scanRoots_closest_mono tmin tmax sh ts _
          _ = (t0 : WithTop ℚ) := rfl
      · calc closestT (scanRoots true tmin tmax sh (t0 :: ts) st)
            = closestT (scanRoots true tmin tmax sh ts st) := by simp [scanRoots, hr0, hb]
          _ ≤ closestT st := scanRoots_closest_mono tmin tmax sh ts st
          _ ≤ (t0 : WithTop ℚ) := not_lt.mp hb
    · by_cases hr : inRange tmin tmax t
      · by_cases hb : (t : WithTop ℚ) < closestT st
        · calc closestT (scanRoots true tmin tmax sh (t :: ts) st)
              = closestT (scanRoots true tmin tmax sh ts (some (t, sh))) := by
                simp [scanRoots, hr, hb]
            _ ≤ (t0 : WithTop ℚ) := ih _ t0 htail hr0
        · calc closestT (scanRoots true tmin tmax sh (t :: ts) st)
              = closestT (scanRoots true tmin tmax sh ts st) := by simp [scanRoots, hr, hb]
            _ ≤ (t0 : WithTop ℚ) := ih st t0 htail hr0
      · calc closestT (scanRoots true tmin tmax sh (t :: ts) st)
            = closestT (scanRoots true tmin tmax sh ts st) := by simp [scanRoots, hr]
          _ ≤ (t0 : WithTop ℚ) := ih st t0 htail hr0

/-- The closest-mode inner loop returns `nullopt` exactly when it started
from `nullopt` and no scanned root is in range. -/
theorem scanRoots_closest_none_iff (tmin : ℚ) (tmax : WithTop ℚ) (sh : Shape) :
    ∀ (ts : List ℚ) (st : Option (ℚ × Shape)),
      scanRoots true tmin tmax sh ts st = none ↔
        st = none ∧ ∀ t ∈ ts, ¬ inRange tmin tmax t := by
  intro ts
  induction ts with
  | nil => intro st; simp [scanRoots]
  | cons t ts ih =>
    intro st
    by_cases hr : inRange tmin tmax t
    · constructor
      · intro hnone
        exfalso
        by_cases hb : (t : WithTop ℚ) < closestT st
        · rw [show scanRoots true tmin tmax sh (t :: ts) st
                = scanRoots true tmin tmax sh ts (some (t, sh)) by simp [scanRoots, hr, hb]]
            at hnone
          rcases scanRoots_closest_origin tmin tmax sh ts (some (t, sh)) with h | ⟨_, _, _, h⟩ <;>
            rw [h] at hnone <;> exact Option.noConfusion hnone
        · have hst : st ≠ none := by
            intro h0
            rw [h0] at hb
            exact hb (by simp [closestT, WithTop.coe_lt_top])
          rw [show scanRoots true tmin tmax sh (t :: ts) st
                = scanRoots true tmin tmax sh ts st by simp [scanRoots, hr, hb]] at hnone
          rcases scanRoots_closest_origin tmin tmax sh ts st with h | ⟨_, _, _, h⟩
          · exact hst (h ▸ hnone)
          · rw [h] at hnone; exact Option.noConfusion hnone
      · intro ⟨_, hall⟩
        exact absurd hr (hall t (List.mem_cons_self t ts))
    · rw [show scanRoots true tmin tmax sh (t :: ts) st
            = scanRoots true tmin tmax sh ts st by simp [scanRoots, hr]]
      rw [ih st]
      constructor
      · intro ⟨h1, h2⟩
        refine ⟨h1, fun t2 hmem => ?_⟩
        rcases List.mem_cons.mp hmem with rfl | htail
        · exact hr
        · exact h2 t2 htail
      · intro ⟨h1, h2⟩
        exact ⟨h1, fun t2 hmem => h2 t2 (List.mem_cons_of_mem t hmem)⟩

/-- `scanShapes` in closest mode: value origin (incoming state, or an
in-range root owned by one of the scanned shapes). -/
theorem scanShapes_closest_origin (tmin : ℚ) (tmax : WithTop ℚ) (ray : Ray) :
    ∀ (shapes : List Shape) (st : Option (ℚ × Shape)),
      scanShapes true tmin tmax ray shapes st = st ∨
        ∃ sh ∈ shapes, ∃ t ∈ sh.intersect ray, inRange tmin tmax t ∧
          scanShapes true tmin tmax ray shapes st = some (t, sh) := by
  intro shapes
  induction shapes with
  | nil => intro st; left; rfl
  | cons sh shapes ih =>
    intro st
    have hstep : scanShapes true tmin tmax ray (sh :: shapes) st
        = scanShapes true tmin tmax ray shapes (scanRoots true tmin tmax sh (sh.intersect ray) st) := by
      simp [scanShapes, List.foldl_cons]
    rcases ih (scanRoots true tmin tmax sh (sh.intersect ray) st) with h | ⟨sh2, hsh2, t2, ht2, hr2, h⟩
    · rcases scanRoots_closest_origin tmin tmax sh (sh.intersect ray) st with h0 | ⟨t0, ht0, hr0, h0⟩
      · left; rw [hstep, h, h0]
      · right
        exact ⟨sh, List.mem_cons_self sh shapes, t0, ht0, hr0, by rw [hstep, h, h0]⟩
    · right
      exact ⟨sh2, List.mem_cons_of_mem sh hsh2, t2, ht2, hr2, by rw [hstep, h]⟩

/-- `scanShapes` in closest mode never increases the recorded `closest_t`. -/
theorem scanShapes_closest_mono (tmin : ℚ) (tmax : WithTop ℚ) (ray : Ray) :
    ∀ (shapes : List Shape) (st : Option (ℚ × Shape)),
      closestT (scanShapes true tmin tmax ray shapes st) ≤ closestT st := by
  intro shapes
  induction shapes with
  | nil => intro st; exact le_refl _
  | cons sh shapes ih =>
    intro st
    calc closestT (scanShapes true tmin tmax ray (sh :: shapes) st)
        = closestT (scanShapes true tmin tmax ray shapes
            (scanRoots true tmin tmax sh (sh.intersect ray) st)) := by
          simp [scanShapes, List.foldl_cons]
      _ ≤ closestT (scanRoots true tmin tmax sh (sh.intersect ray) st) := ih _
      _ ≤ closestT st := scanRoots_closest_mono tmin tmax sh _ st

/-- After `scanShapes` in closest mode, the recorded `closest_t` is at most
every in-range root of every scanned shape. -/
theorem scanShapes_closest_le (tmin : ℚ) (tmax : WithTop ℚ) (ray : Ray) :
    ∀ (shapes : List Shape) (st : Option (ℚ × Shape)) (sh0 : Shape) (t0 : ℚ),
      sh0 ∈ shapes → t0 ∈ sh0.intersect ray → inRange tmin tmax t0 →
      closestT (scanShapes true tmin tmax ray shapes st) ≤ (t0 : WithTop ℚ) := by
  intro shapes
  induction shapes with
  | nil => intro st sh0 t0 h; exact absurd h (List.not_mem_nil sh0)
  | cons sh shapes ih =>
    intro st sh0 t0 hmem ht0 hr0
    have hstep : scanShapes true tmin tmax ray (sh :: shapes) st
        = scanShapes true tmin tmax ray shapes (scanRoots true tmin tmax sh (sh.intersect ray) st) := by
      simp [scanShapes, List.foldl_cons]
    rcases List.mem_cons.mp hmem with rfl | htail
    · rw [hstep]
      calc closestT (scanShapes true tmin tmax ray shapes
              (scanRoots true tmin tmax sh0 (sh0.intersect ray) st))
          ≤ closestT (scanRoots true tmin tmax sh0 (sh0.intersect ray) st) :=
            scanShapes_closest_mono tmin tmax ray shapes _
        _ ≤ (t0 : WithTop ℚ) := scanRoots_closest_le tmin tmax sh0 _ st t0 ht0 hr0
    · rw [hstep]
      exact ih _ sh0 t0 htail ht0 hr0

/-- `scanShapes` in closest mode returns `nullopt` exactly when it started
from `nullopt` and no shape has an in-range root. -/
theorem scanShapes_closest_none_iff (tmin : ℚ) (tmax : WithTop ℚ) (ray : Ray) :
    ∀ (shapes : List Shape) (st : Option (ℚ × Shape)),
      scanShapes true tmin tmax ray shapes st = none ↔
        st = none ∧ ∀ sh ∈ shapes, ∀ t ∈ sh.intersect ray, ¬ inRange tmin tmax t := by
  intro shapes
  induction shapes with
  | nil => intro st; simp [scanShapes]
  | cons sh shapes ih =>
    intro st
    have hstep : scanShapes true tmin tmax ray (sh :: shapes) st
        = scanShapes true tmin tmax ray shapes (scanRoots true tmin tmax sh (sh.intersect ray) st) := by
      simp [scanShapes, List.foldl_cons]
    rw [hstep, ih _, scanRoots_closest_none_iff]
    constructor
    · intro ⟨⟨h1, h2⟩, h3⟩
      refine ⟨h1, fun sh2 hmem => ?_⟩
      rcases List.mem_cons.mp hmem with rfl | htail
      · exact h2
      · exact h3 sh2 htail
    · intro ⟨h1, h2⟩
      exact ⟨⟨h1, h2 sh (List.mem_cons_self sh shapes)⟩,
        fun sh2 htail => h2 sh2 (List.mem_cons_of_mem sh htail)⟩

/-- The full closest-mode search returns `nullopt` exactly when no shape in
either collection has a root strictly inside `(t_min, t_max)`. -/
theorem calc_closest_none_iff (spheres planes : List Shape) (ray : Ray)
    (tmin : ℚ) (tmax : WithTop ℚ) :
    calc_ray_shape_intersect spheres planes ray tmin tmax true = none ↔
      ∀ sh ∈ spheres ++ planes, ∀ t ∈ sh.intersect ray, ¬ inRange tmin tmax t := by
  unfold calc_ray_shape_intersect
  rw [scanShapes_closest_none_iff, scanShapes_closest_none_iff]
  constructor
  · intro ⟨⟨_, hs⟩, hp⟩ sh hmem
    rcases List.mem_append.mp hmem with h | h
    · exact hs sh h
    · exact hp sh h
  · intro h
    exact ⟨⟨rfl, fun sh hmem => h sh (List.mem_append.mpr (Or.inl hmem))⟩,
      fun sh hmem => h sh (List.mem_append.mpr (Or.inr hmem))⟩

/-! ### Any-mode search lemmas -/

/-- The any-mode inner loop takes the first in-range root of the scanned
shape (the `break` leaves the remaining roots of this shape unscanned),
and otherwise leaves the state unchanged. -/
theorem scanRoots_any_eq (tmin : ℚ) (tmax : WithTop ℚ) (sh : Shape) :
    ∀ (ts : List ℚ) (st : Option (ℚ × Shape)),
      scanRoots false tmin tmax sh ts st =
        match ts.find? (fun t => decide (inRange tmin tmax t)) with
        | some t => some (t, sh)
        | none => st := by
  intro ts
  induction ts with
  | nil => intro st; simp [scanRoots]
  | cons t ts ih =>
    intro st
    by_cases hr : inRange tmin tmax t
    · rw [List.find?_cons_of_pos _ (by simpa using hr)]
      simp [scanRoots, hr]
    · rw [List.find?_cons_of_neg _ (by simpa using hr)]
      rw [show scanRoots false tmin tmax sh (t :: ts) st
            = scanRoots false tmin tmax sh ts st by simp [scanRoots, hr]]
      exact ih st

/-- The any-mode outer loop, rephrased with `List.find?`: every scanned
shape that has an in-range root overwrites the state with its first
in-range root. -/
theorem scanShapes_any_eq (tmin : ℚ) (tmax : WithTop ℚ) (ray : Ray) :
    ∀ (shapes : List Shape) (st : Option (ℚ × Shape)),
      scanShapes false tmin tmax ray shapes st =
        shapes.foldl
          (fun acc sh =>
            match (sh.intersect ray).find? (fun t => decide (inRange tmin tmax t)) with
            | some t => some (t, sh)
            | none => acc)
          st := by
  intro shapes
  induction shapes with
  | nil => intro st; rfl
  | cons sh shapes ih =>
    intro st
    rw [show scanShapes false tmin tmax ray (sh :: shapes) st
          = scanShapes false tmin tmax ray shapes
              (scanRoots false tmin tmax sh (sh.intersect ray) st) by
        simp [scanShapes, List.foldl_cons]]
    rw [List.foldl_cons, ih, scanRoots_any_eq]

/-- The any-mode search over one collection yields `nullopt` exactly when
it started from `nullopt` and no shape has an in-range root. -/
theorem scanShapes_any_none_iff (tmin : ℚ) (tmax : WithTop ℚ) (ray : Ray) :
    ∀ (shapes : List Shape) (st : Option (ℚ × Shape)),
      scanShapes false tmin tmax ray shapes st = none ↔
        st = none ∧ ∀ sh ∈ shapes, ∀ t ∈ sh.intersect ray, ¬ inRange tmin tmax t := by
  intro shapes
  induction shapes with
  | nil => intro st; simp [scanShapes]
  | cons sh shapes ih =>
    intro st
    rw [show scanShapes false tmin tmax ray (sh :: shapes) st
          = scanShapes false tmin tmax ray shapes
              (scanRoots false tmin tmax sh (sh.intersect ray) st) by
        simp [scanShapes, List.foldl_cons]]
    rw [ih, scanRoots_any_eq]
    rcases hf : (sh.intersect ray).find? (fun t => decide (inRange tmin tmax t)) with _ | t0
    · have hall : ∀ t ∈ sh.intersect ray, ¬ inRange tmin tmax t := by
        intro t ht
        have := List.find?_eq_none.mp hf t ht
        simpa using this
      constructor
      · intro ⟨h1, h2⟩
        refine ⟨h1, fun sh2 hmem => ?_⟩
        rcases List.mem_cons.mp hmem with rfl | htail
        · exact hall
        · exact h2 sh2 htail
      · intro ⟨h1, h2⟩
        exact ⟨h1, fun sh2 htail => h2 sh2 (List.mem_cons_of_mem sh htail)⟩
    · have ht0 : t0 ∈ sh.intersect ray ∧ inRange tmin tmax t0 := by
        refine ⟨List.mem_of_find?_eq_some hf, ?_⟩
        have := List.find?_some hf
        simpa using this
      constructor
      · intro ⟨h1, _⟩
        exact Option.noConfusion h1
      · intro ⟨_, h2⟩
        exact absurd ht0.2 (h2 sh (List.mem_cons_self sh shapes) t0 ht0.1)

/-- The full any-mode search returns `nullopt` exactly when no shape in
either collection has a root strictly inside `(t_min, t_max)`. -/
theorem calc_any_none_iff (spheres planes : List Shape) (ray : Ray)
    (tmin : ℚ) (tmax : WithTop ℚ) :
    calc_ray_shape_intersect spheres planes ray tmin tmax false = none ↔
      ∀ sh ∈ spheres ++ planes, ∀ t ∈ sh.intersect ray, ¬ inRange tmin tmax t := by
  unfold calc_ray_shape_intersect
  rw [scanShapes_any_none_iff, scanShapes_any_none_iff]
  constructor
  · intro ⟨⟨_, hs⟩, hp⟩ sh hmem
    rcases List.mem_append.mp hmem with h | h
    · exact hs sh h
    · exact hp sh h
  · intro h
    exact ⟨⟨rfl, fun sh hmem => h sh (List.mem_append.mpr (Or.inl hmem))⟩,
      fun sh hmem => h sh (List.mem_append.mpr (Or.inr hmem))⟩

/-! ### Claim theorems: the intersection search -/

/-- C1: for every ray, bounds `t_min < t_max` and shape collections, the
closest-mode search returns `nullopt` exactly when no shape has a root
strictly inside `(t_min, t_max)`; and a returned pair `(t, shape)` is an
in-range root owned by one of the scanned shapes that is minimal among
all shapes' in-range roots. -/
theorem closest_mode_selects_minimum (spheres planes : List Shape) (ray : Ray)
    (tmin : ℚ) (tmax : WithTop ℚ) (hlt : (tmin : WithTop ℚ) < tmax) :
    (calc_ray_shape_intersect spheres planes ray tmin tmax true = none ↔
      ∀ sh ∈ spheres ++ planes, ∀ t ∈ sh.intersect ray, ¬ inRange tmin tmax t) ∧
    ∀ t sh, calc_ray_shape_intersect spheres planes ray tmin tmax true = some (t, sh) →
      sh ∈ spheres ++ planes ∧ t ∈ sh.intersect ray ∧ inRange tmin tmax t ∧
        ∀ sh2 ∈ spheres ++ planes, ∀ t2 ∈ sh2.intersect ray,
          inRange tmin tmax t2 → t ≤ t2 := by
  refine ⟨calc_closest_none_iff spheres planes ray tmin tmax, ?_⟩
  intro t sh hres
  have hmain : calc_ray_shape_intersect spheres planes ray tmin tmax true
      = scanShapes true tmin tmax ray planes (scanShapes true tmin tmax ray spheres none) := rfl
  have hown : sh ∈ spheres ++ planes ∧ t ∈ sh.intersect ray ∧ inRange tmin tmax t := by
    rcases scanShapes_closest_origin tmin tmax ray planes
        (scanShapes true tmin tmax ray spheres none) with h | ⟨sh2, hsh2, t2, ht2, hr2, h⟩
    · rcases scanShapes_closest_origin tmin tmax ray spheres none with
        h0 | ⟨sh0, hsh0, t0, ht0, hr0, h0⟩
      · rw [hmain, h, h0] at hres
        exact Option.noConfusion hres
      · rw [hmain, h, h0] at hres
        have hp := Option.some.inj hres
        rw [Prod.mk.injEq] at hp
        obtain ⟨rfl, rfl⟩ := hp
        exact ⟨List.mem_append.mpr (Or.inl hsh0), ht0, hr0⟩
    · rw [hmain, h] at hres
      have hp := Option.some.inj hres
      rw [Prod.mk.injEq] at hp
      obtain ⟨rfl, rfl⟩ := hp
      exact ⟨List.mem_append.mpr (Or.inr hsh2), ht2, hr2⟩
  refine ⟨hown.1, hown.2.1, hown.2.2, ?_⟩
  intro sh2 hsh2 t2 ht2 hr2
  have hct : closestT (calc_ray_shape_intersect spheres planes ray tmin tmax true)
      = (t : WithTop ℚ) := by rw [hres]; rfl
  have hle : closestT (calc_ray_shape_intersect spheres planes ray tmin tmax true)
      ≤ (t2 : WithTop ℚ) := by
    rcases List.mem_append.mp hsh2 with hmem | hmem
    · calc closestT (calc_ray_shape_intersect spheres planes ray tmin tmax true)
          = closestT (scanShapes true tmin tmax ray planes
              (scanShapes true tmin tmax ray spheres none)) := by rw [hmain]
        _ ≤ closestT (scanShapes true tmin tmax ray spheres none) :=
            scanShapes_closest_mono tmin tmax ray planes _
        _ ≤ (t2 : WithTop ℚ) :=
            scanShapes_closest_le tmin tmax ray spheres none sh2 t2 hmem ht2 hr2
    · rw [hmain]
      exact scanShapes_closest_le tmin tmax ray planes _ sh2 t2 hmem ht2 hr2
  rw [hct] at hle
  exact_mod_cast hle

/-- Witness for C1 at a concrete two-shape scene: the root `2` of
`wShapeA` qualifies inside `(1, 10)`, and it is at most the qualifying
root `5` of `wShapeB`. -/
theorem closest_mode_selects_minimum_witness :
    inRange 1 ((10 : ℚ) : WithTop ℚ) 2 ∧ (2 : ℚ) ≤ 5 := by
  obtain ⟨-, hsome⟩ := closest_mode_selects_minimum [wShapeA] [wShapeB] wRay 1
    ((10 : ℚ) : WithTop ℚ) (by exact_mod_cast (by norm_num : (1 : ℚ) < 10))
  obtain ⟨hmem, hroot, hr, hmin⟩ := hsome 2 wShapeA rfl
  exact ⟨hr, hmin wShapeB (by simp) 5 (by simp [wShapeB])
    ⟨by norm_num, by exact_mod_cast (by norm_num : (5 : ℚ) < 10)⟩⟩

/-- C4 counterexample: with two shapes whose roots `2` (first shape) and
`5` (second shape) both qualify in `(1, 10)`, the any-mode search of the
code returns the second shape's root `5` — the scan went on past the
first accepted root — whereas a search that stops scanning immediately
(the spec's words, `spec_any_first_hit`) returns `2`. -/
theorem any_mode_stops_immediately_counterexample :
    (calc_ray_shape_intersect [wShapeA, wShapeB] [] wRay 1 ((10 : ℚ) : WithTop ℚ)
        false).map Prod.fst = some 5 ∧
      (spec_any_first_hit 1 ((10 : ℚ) : WithTop ℚ) wRay ([wShapeA, wShapeB] ++ [])).map
          Prod.fst = some 2 := by
  constructor <;> rfl

/-- C4 amended: in any mode, accepting a qualifying root stops the scan of
the current shape's remaining roots only; the search continues with every
later shape, whose first qualifying root overwrites the accepted hit.  The
result is therefore the first in-range root of the last shape (spheres
first, then planes) that has one. -/
theorem any_mode_scan_characterization (spheres planes : List Shape) (ray : Ray)
    (tmin : ℚ) (tmax : WithTop ℚ) :
    calc_ray_shape_intersect spheres planes ray tmin tmax false =
      any_mode_last_hit tmin tmax ray (spheres ++ planes) := by
  unfold calc_ray_shape_intersect any_mode_last_hit
  rw [scanShapes_any_eq, scanShapes_any_eq, List.foldl_append]

/-- C10: any mode and closest mode agree on whether a qualifying
intersection exists. -/
theorem any_closest_agree_on_existence (spheres planes : List Shape) (ray : Ray)
    (tmin : ℚ) (tmax : WithTop ℚ) (hlt : (tmin : WithTop ℚ) < tmax) :
    (calc_ray_shape_intersect spheres planes ray tmin tmax false).isSome = true ↔
      (calc_ray_shape_intersect spheres planes ray tmin tmax true).isSome = true := by
  rw [Option.isSome_iff_ne_none, Option.isSome_iff_ne_none]
  rw [ne_eq, ne_eq, calc_any_none_iff, calc_closest_none_iff]

/-- Witness for C10 at a concrete scene: both modes report a hit. -/
theorem any_closest_agree_on_existence_witness :
    (calc_ray_shape_intersect [wShapeA] [wShapeB] wRay 1 ((10 : ℚ) : WithTop ℚ)
        false).isSome = true ∧
      (calc_ray_shape_intersect [wShapeA] [wShapeB] wRay 1 ((10 : ℚ) : WithTop ℚ)
          true).isSome = true := by
  have h := any_closest_agree_on_existence [wShapeA] [wShapeB] wRay 1
    ((10 : ℚ) : WithTop ℚ) (by exact_mod_cast (by norm_num : (1 : ℚ) < 10))
  have hc : (calc_ray_shape_intersect [wShapeA] [wShapeB] wRay 1 ((10 : ℚ) : WithTop ℚ)
      true).isSome = true := rfl
  exact ⟨h.mpr hc, hc⟩

/-! ### Lighting lemmas -/

/-- The accumulation loop of `compute_lighting` is the sum of the
individual light contributions. -/
theorem foldl_light_contribution_eq_sum (f : Light → ℚ) :
    ∀ (ls : List Light) (a : ℚ),
      ls.foldl (fun acc l => acc + f l) a = a + (ls.map f).sum := by
  intro ls
  induction ls with
  | nil => intro a; simp
  | cons l ls ih =>
    intro a
    rw [List.foldl_cons, ih, List.map_cons, List.sum_cons]
    ring

/-- C5: the loop of `compute_lighting` sums per-light contributions; an
ambient light always contributes exactly its intensity, unaffected by any
occlusion; a non-ambient light whose any-mode occlusion probe over
`(kEpsilon, max_t)` along the light direction hits a shape contributes
zero (diffuse and specular both suppressed). -/
theorem lighting_occlusion_and_ambient (ops : NumOps) (spheres planes : List Shape)
    (lights : List Light) (point normal ray : Vec3) (specularity : ℚ) :
    compute_lighting ops spheres planes lights point normal ray specularity =
        (lights.map (light_contribution ops spheres planes point normal ray specularity)).sum ∧
      (∀ l : Light, l.type = LightType.kAmbient →
        light_contribution ops spheres planes point normal ray specularity l = l.intensity) ∧
      (∀ l : Light, l.type ≠ LightType.kAmbient →
        (calc_ray_shape_intersect spheres planes ⟨point, light_direction l point⟩ kEpsilon
            (light_max_t l) false).isSome = true →
        light_contribution ops spheres planes point normal ray specularity l = 0) := by
  refine ⟨?_, ?_, ?_⟩
  · rw [compute_lighting, foldl_light_contribution_eq_sum, zero_add]
  · intro l hl
    simp [light_contribution, hl]
  · intro l hl hocc
    have hnotamb : ¬ l.type = LightType.kAmbient := hl
    simp [light_contribution, hnotamb, hocc]

/-- Witness for C5: with a blocking shape at root `1/2`, the concrete
ambient light contributes its full intensity while the occluded point
light contributes zero. -/
theorem lighting_occlusion_and_ambient_witness :
    light_contribution wOps [wBlocker] [] ⟨0, 0, 0⟩ ⟨0, 1, 0⟩ ⟨0, 0, 1⟩ 0 wAmbient
        = wAmbient.intensity ∧
      light_contribution wOps [wBlocker] [] ⟨0, 0, 0⟩ ⟨0, 1, 0⟩ ⟨0, 0, 1⟩ 0 wPoint = 0 := by
  obtain ⟨-, hamb, hocc⟩ := lighting_occlusion_and_ambient wOps [wBlocker] []
    [wAmbient, wPoint] ⟨0, 0, 0⟩ ⟨0, 1, 0⟩ ⟨0, 0, 1⟩ 0
  refine ⟨hamb wAmbient rfl, hocc wPoint (by decide) ?_⟩
  norm_num [calc_ray_shape_intersect, scanShapes, scanRoots, light_direction, light_max_t,
    wPoint, wBlocker, inRange, kEpsilon, WithTop.coe_lt_coe]
  rw [if_neg (by decide : ¬(LightType.kPoint = LightType.kDirectional))]
  exact_mod_cast (by norm_num : (1 : ℚ) / 2 < 1)

/-! ### Refraction -/

/-- C6: `calc_refraction_vector` returns the incoming vector unchanged
when `refractivity ≤ 0`; and under total internal reflection (negative
radicand) it returns the reflection of the normalized arrival vector
across the sign-adjusted normalized normal. -/
theorem refraction_passthrough_and_tir (ops : NumOps) (incoming normal : Vec3)
    (refractivity : ℚ) :
    (refractivity ≤ 0 → calc_refraction_vector ops incoming normal refractivity = incoming) ∧
      (0 < refractivity → refraction_radicand ops incoming normal refractivity < 0 →
        calc_refraction_vector ops incoming normal refractivity =
          reflect_across_normal (refraction_arrival_unit ops incoming)
            (refraction_normal_unit ops incoming normal)) := by
  constructor
  · intro h
    simp [calc_refraction_vector, h]
  · intro hpos hneg
    simp [calc_refraction_vector, not_le.mpr hpos, hneg]

/-- Witness for C6: at `incoming = (1,0,0)`, `normal = (0,1,0)`,
`refractivity = 1` (an exiting ray, ratio `2`), the radicand is `-3 < 0`
and the function returns the pure reflection vector. -/
theorem refraction_passthrough_and_tir_witness :
    refraction_radicand wOps wIncoming wNormal 1 < 0 ∧
      calc_refraction_vector wOps wIncoming wNormal 1 =
        reflect_across_normal (refraction_arrival_unit wOps wIncoming)
          (refraction_normal_unit wOps wIncoming wNormal) := by
  have hrad : refraction_radicand wOps wIncoming wNormal 1 < 0 := by
    norm_num [refraction_radicand, refraction_ratio, refraction_normal_unit,
      refraction_arrival_unit, refraction_entering, normalize, euclidean, dot,
      wOps, wIncoming, wNormal]
  exact ⟨hrad, (refraction_passthrough_and_tir wOps wIncoming wNormal 1).2 (by norm_num) hrad⟩

/-! ### Sphere intersection -/

/-- Both closed-form quadratic roots `(-b ± r) / (2a)` solve
`a·t² + b·t + c = 0` when `r² = b² - 4ac` and `a ≠ 0`. -/
theorem quadratic_root_formula (a b c r : ℚ) (ha : a ≠ 0) (hr : r * r = b * b - 4 * a * c) :
    a * ((-b + r) / (2 * a)) ^ 2 + b * ((-b + r) / (2 * a)) + c = 0 ∧
      a * ((-b - r) / (2 * a)) ^ 2 + b * ((-b - r) / (2 * a)) + c = 0 := by
  constructor <;>
    · field_simp
      ring_nf
      nlinarith [hr]

/-- C7: `Sphere::calc_ray_intersect` returns nothing exactly when the
discriminant `b² - 4ac` is negative (unconditionally — the code branches
on the discriminant before ever taking a square root); otherwise it
returns both quadratic roots `(-b ± √disc)/(2a)`, which — when the square
root squares back to the discriminant and `a ≠ 0` — are genuine roots of
`a·t² + b·t + c = 0`, two equal values in the tangent case. -/
theorem sphere_intersect_solves_quadratic (ops : NumOps) (s : SphereP) (p v : Vec3) :
    (SphereP.calc_ray_intersect ops s p v = none ↔ sphere_discriminant s p v < 0) ∧
      ∀ t1 t2, SphereP.calc_ray_intersect ops s p v = some (t1, t2) →
        0 ≤ sphere_discriminant s p v ∧
          t1 = (-sphere_qb s p v + ops.sqrt (sphere_discriminant s p v)) / (2 * sphere_qa v) ∧
          t2 = (-sphere_qb s p v - ops.sqrt (sphere_discriminant s p v)) / (2 * sphere_qa v) ∧
          (ops.sqrt (sphere_discriminant s p v) * ops.sqrt (sphere_discriminant s p v)
              = sphere_discriminant s p v →
            sphere_qa v ≠ 0 →
            sphere_qa v * t1 ^ 2 + sphere_qb s p v * t1 + sphere_qc s p = 0 ∧
              sphere_qa v * t2 ^ 2 + sphere_qb s p v * t2 + sphere_qc s p = 0 ∧
              (sphere_discriminant s p v = 0 → t1 = t2)) := by
  constructor
  · by_cases hd : sphere_discriminant s p v < 0 <;>
      simp [SphereP.calc_ray_intersect, hd]
  · intro t1 t2 hres
    by_cases hd : sphere_discriminant s p v < 0
    · rw [SphereP.calc_ray_intersect] at hres
      simp [hd] at hres
    · rw [SphereP.calc_ray_intersect] at hres
      simp only [hd, if_false] at hres
      have hp := Option.some.inj hres
      rw [Prod.mk.injEq] at hp
      obtain ⟨rfl, rfl⟩ := hp
      refine ⟨not_lt.mp hd, rfl, rfl, ?_⟩
      intro hsq ha
      have hrr : ops.sqrt (sphere_discriminant s p v) * ops.sqrt (sphere_discriminant s p v)
          = sphere_qb s p v * sphere_qb s p v - 4 * sphere_qa v * sphere_qc s p := by
        rw [hsq]; rfl
      obtain ⟨h1, h2⟩ := quadratic_root_formula (sphere_qa v) (sphere_qb s p v)
        (sphere_qc s p) (ops.sqrt (sphere_discriminant s p v)) ha hrr
      refine ⟨h1, h2, ?_⟩
      intro h0
      have h00 : ops.sqrt (sphere_discriminant s p v) * ops.sqrt (sphere_discriminant s p v)
          = 0 := by rw [hsq]; exact h0
      rw [mul_self_eq_zero.mp h00]
      norm_num

/-- Witness for C7: the origin ray `(0,0,1)` against the sphere at
`(0,0,3)` of radius `1` has discriminant `4`; the returned roots `4` and
`2` both solve the quadratic. -/
theorem sphere_intersect_solves_quadratic_witness :
    SphereP.calc_ray_intersect wOpsSqrtTwo wSphere ⟨0, 0, 0⟩ ⟨0, 0, 1⟩ = some (4, 2) ∧
      sphere_qa ⟨0, 0, 1⟩ * (4 : ℚ) ^ 2 + sphere_qb wSphere ⟨0, 0, 0⟩ ⟨0, 0, 1⟩ * 4
          + sphere_qc wSphere ⟨0, 0, 0⟩ = 0 := by
  have hres : SphereP.calc_ray_intersect wOpsSqrtTwo wSphere ⟨0, 0, 0⟩ ⟨0, 0, 1⟩
      = some (4, 2) := by
    norm_num [SphereP.calc_ray_intersect, sphere_discriminant, sphere_qa, sphere_qb,
      sphere_qc, wSphere, wOpsSqrtTwo, dot]
  have h := (sphere_intersect_solves_quadratic wOpsSqrtTwo wSphere ⟨0, 0, 0⟩
    ⟨0, 0, 1⟩).2 4 2 hres
  exact ⟨hres,
    (h.2.2.2
      (by norm_num [sphere_discriminant, sphere_qa, sphere_qb, sphere_qc, wSphere,
        wOpsSqrtTwo, dot])
      (by norm_num [sphere_qa, dot])).1⟩

/-! ### Recursive tracer -/

/-- C3: at `recursion_depth = 0` both the reflective and the transparent
branch of `trace_ray` are skipped entirely — their contributions are the
default black — regardless of the material's reflectivity and
transparency values.  (`trace_ray` is a total function whose recursive
calls occur only under the guard `recursion_depth > 0` and always at
`recursion_depth - 1`; its termination is checked by the measure
`recursion_depth`.) -/
theorem trace_depth_zero_skips_recursion (E : SceneEnv) (ray : Ray) (tmin : ℚ)
    (tmax : WithTop ℚ) :
    trace_ray E ray tmin tmax 0 =
      match calc_ray_shape_intersect E.spheres E.planes ray tmin tmax true with
      | none => whiteColor
      | some (t, sh) =>
        scale_color
          (scale_color sh.material.color
              (1 - sh.material.reflectivity - sh.material.transparency)
            + blackColor + blackColor)
          (compute_lighting E.ops E.spheres E.planes E.lights (ray.calc_point t)
            (sh.normalAt (ray.calc_point t)) ray.vector sh.material.specularity) := by
  rw [trace_ray.eq_def]
  rcases h : calc_ray_shape_intersect E.spheres E.planes ray tmin tmax true with _ | ⟨t, sh⟩
  · rfl
  · rfl

/-- C8: when no shape has a root strictly inside the range, `trace_ray`
returns exactly the fixed background color (`sf::Color::White`) at every
recursion depth; the absent intersection is an ordinary `Option` value,
not an error. -/
theorem trace_no_hit_background (E : SceneEnv) (ray : Ray) (tmin : ℚ) (tmax : WithTop ℚ)
    (h : ∀ sh ∈ E.spheres ++ E.planes, ∀ t ∈ sh.intersect ray, ¬ inRange tmin tmax t) :
    ∀ depth : ℕ, trace_ray E ray tmin tmax depth = whiteColor := by
  intro depth
  have hnone : calc_ray_shape_intersect E.spheres E.planes ray tmin tmax true = none :=
    (calc_closest_none_iff E.spheres E.planes ray tmin tmax).mpr h
  rw [trace_ray.eq_def, hnone]

/-- Witness for C8: in an empty scene the tracer returns white at the
maximum recursion depth. -/
theorem trace_no_hit_background_witness :
    trace_ray wEnvEmpty wRay 1 ((10 : ℚ) : WithTop ℚ) kMaxRecursionDepth = whiteColor :=
  trace_no_hit_background wEnvEmpty wRay 1 ((10 : ℚ) : WithTop ℚ)
    (by simp [wEnvEmpty]) kMaxRecursionDepth

/-- C9: on a hit, `trace_ray` scales the material color by
`1 - reflectivity - transparency`, adds the reflectivity-weighted
reflected color and the transparency-weighted transparent color, and
multiplies the full blended color — exactly once, at this level — by the
lighting intensity computed at this level's intersection point, normal
and specularity; `scale_color` clamps each channel to `0..255`. -/
theorem trace_hit_blend_structure (E : SceneEnv) (ray : Ray) (tmin : ℚ) (tmax : WithTop ℚ)
    (depth : ℕ) (t : ℚ) (sh : Shape)
    (hhit : calc_ray_shape_intersect E.spheres E.planes ray tmin tmax true = some (t, sh)) :
    trace_ray E ray tmin tmax depth =
      scale_color
        (scale_color sh.material.color (1 - sh.material.reflectivity - sh.material.transparency)
          + (if 0 < depth ∧ 0 < sh.material.reflectivity then
               scale_color
                 (trace_ray E
                   ⟨ray.calc_point t,
                     reflect_across_normal (-ray.vector) (sh.normalAt (ray.calc_point t))⟩
                   (kEpsilon * t) ⊤ (depth - 1))
                 sh.material.reflectivity
             else blackColor)
          + (if 0 < depth ∧ 0 < sh.material.transparency then
               scale_color
                 (trace_ray E
                   ⟨ray.calc_point t,
                     calc_refraction_vector E.ops ray.vector (sh.normalAt (ray.calc_point t))
                       sh.material.refractivity⟩
                   kEpsilon ⊤ (depth - 1))
                 sh.material.transparency
             else blackColor))
        (compute_lighting E.ops E.spheres E.planes E.lights (ray.calc_point t)
          (sh.normalAt (ray.calc_point t)) ray.vector sh.material.specularity) := by
  rw [trace_ray.eq_def, hhit]
  simp only [dite_eq_ite]

/-- Witness for C9 at a one-shape scene hit by `wRay` at `t = 2`, traced
at depth `1`. -/
theorem trace_hit_blend_structure_witness :
    trace_ray wEnvHit wRay 1 ⊤ 1 =
      scale_color
        (scale_color wShapeC.material.color
            (1 - wShapeC.material.reflectivity - wShapeC.material.transparency)
          + (if 0 < 1 ∧ 0 < wShapeC.material.reflectivity then
               scale_color
                 (trace_ray wEnvHit
                   ⟨wRay.calc_point 2,
                     reflect_across_normal (-wRay.vector) (wShapeC.normalAt (wRay.calc_point 2))⟩
                   (kEpsilon * 2) ⊤ (1 - 1))
                 wShapeC.material.reflectivity
             else blackColor)
          + (if 0 < 1 ∧ 0 < wShapeC.material.transparency then
               scale_color
                 (trace_ray wEnvHit
                   ⟨wRay.calc_point 2,
                     calc_refraction_vector wEnvHit.ops wRay.vector
                       (wShapeC.normalAt (wRay.calc_point 2)) wShapeC.material.refractivity⟩
                   kEpsilon ⊤ (1 - 1))
                 wShapeC.material.transparency
             else blackColor))
        (compute_lighting wEnvHit.ops wEnvHit.spheres wEnvHit.planes wEnvHit.lights
          (wRay.calc_point 2) (wShapeC.normalAt (wRay.calc_point 2)) wRay.vector
          wShapeC.material.specularity) :=
  trace_hit_blend_structure wEnvHit wRay 1 ⊤ 1 2 wShapeC rfl

/-! ### Canvas partition -/

/-- The last segment's begin column stays within the canvas:
`(N-1) · (W/N) ≤ 2 · (W/2)`. -/
theorem seg_last_bound (W N : ℕ) (hN : 1 ≤ N) (hW : N ≤ W) :
    (N - 1) * (W / N) ≤ 2 * (W / 2) := by
  have hq1 : 1 ≤ W / N := (Nat.one_le_div_iff (by omega)).mpr hW
  have hNq : W / N * N ≤ W := Nat.div_mul_le_self W N
  have hsplit : (N - 1) * (W / N) + W / N = N * (W / N) := by
    have hN1 : N - 1 + 1 = N := by omega
    calc (N - 1) * (W / N) + W / N = (N - 1 + 1) * (W / N) := by ring
      _ = N * (W / N) := by rw [hN1]
  have hcomm : N * (W / N) = W / N * N := Nat.mul_comm _ _
  omega

/-- Every segment ends no later than the last canvas column `W/2`. -/
theorem seg_end_le (W N s : ℕ) (hN : 1 ≤ N) (hW : N ≤ W) (hs : s < N) :
    seg_x_end W N s ≤ ((W / 2 : ℕ) : ℤ) := by
  unfold seg_x_end
  by_cases he : s = N - 1
  · rw [if_pos he]
  · rw [if_neg he]
    have hs1 : s + 1 ≤ N - 1 := by omega
    have hmul : (s + 1) * (W / N) ≤ (N - 1) * (W / N) := Nat.mul_le_mul_right _ hs1
    have hz : ((s + 1) * (W / N) : ℕ) ≤ 2 * (W / 2) := le_trans hmul (seg_last_bound W N hN hW)
    have hz2 : ((s : ℤ) + 1) * ((W / N : ℕ) : ℤ) ≤ 2 * ((W / 2 : ℕ) : ℤ) := by
      exact_mod_cast hz
    linarith

/-- An earlier segment ends no later than a later segment begins. -/
theorem seg_order (W N s1 s2 : ℕ) (h12 : s1 < s2) (hs2 : s2 < N) :
    seg_x_end W N s1 ≤ seg_x_begin W N s2 := by
  unfold seg_x_end seg_x_begin
  rw [if_neg (by omega : ¬ s1 = N - 1)]
  have hmul : (s1 + 1) * (W / N) ≤ s2 * (W / N) := Nat.mul_le_mul_right _ (by omega)
  have hz : ((s1 : ℤ) + 1) * ((W / N : ℕ) : ℤ) ≤ (s2 : ℤ) * ((W / N : ℕ) : ℤ) := by
    exact_mod_cast hmul
  linarith

/-- C2: for every canvas width `W` and worker count `N` with
`1 ≤ N ≤ W`, the worker column segments of `update_canvas` are
contiguous (each non-final segment ends exactly where the next begins),
pairwise disjoint, and their union is exactly the column interval
`[-(W/2), W/2)` — including when `N` does not divide `W`. -/
theorem canvas_partition_correct (W N : ℕ) (hN : 1 ≤ N) (hW : N ≤ W) :
    (∀ s : ℕ, s + 1 < N → seg_x_end W N s = seg_x_begin W N (s + 1)) ∧
      (∀ s1 s2 : ℕ, s1 < N → s2 < N → ∀ x : ℤ,
        seg_contains W N s1 x → seg_contains W N s2 x → s1 = s2) ∧
      (∀ x : ℤ, (∃ s : ℕ, s < N ∧ seg_contains W N s x) ↔
        -((W / 2 : ℕ) : ℤ) ≤ x ∧ x < ((W / 2 : ℕ) : ℤ)) := by
  refine ⟨?_, ?_, ?_⟩
  · intro s hs
    unfold seg_x_end seg_x_begin
    rw [if_neg (by omega : ¬ s = N - 1)]
    have hc : ((s + 1 : ℕ) : ℤ) = (s : ℤ) + 1 := by push_cast; ring
    rw [hc]
  · intro s1 s2 hs1 hs2 x hc1 hc2
    obtain ⟨hc1a, hc1b⟩ := hc1
    obtain ⟨hc2a, hc2b⟩ := hc2
    by_contra hne
    rcases Nat.lt_or_ge s1 s2 with h12 | h21
    · have hord := seg_order W N s1 s2 h12 hs2
      exact absurd (lt_of_lt_of_le hc1b (le_trans hord hc2a)) (lt_irrefl x)
    · have h12 : s2 < s1 := by omega
      have hord := seg_order W N s2 s1 h12 hs1
      exact absurd (lt_of_lt_of_le hc2b (le_trans hord hc1a)) (lt_irrefl x)
  · intro x
    constructor
    · rintro ⟨s, hsN, hx1, hx2⟩
      constructor
      · have hb : (0 : ℤ) ≤ (s : ℤ) * ((W / N : ℕ) : ℤ) := by positivity
        unfold seg_x_begin at hx1
        linarith
      · exact lt_of_lt_of_le hx2 (seg_end_le W N s hN hW hsN)
    · rintro ⟨hlo, hhi⟩
      have hq1 : 1 ≤ W / N := (Nat.one_le_div_iff (by omega)).mpr hW
      have hm0 : (0 : ℤ) ≤ x + ((W / 2 : ℕ) : ℤ) := by linarith
      obtain ⟨m, hm⟩ : ∃ m : ℕ, (m : ℤ) = x + ((W / 2 : ℕ) : ℤ) :=
        ⟨(x + ((W / 2 : ℕ) : ℤ)).toNat, Int.toNat_of_nonneg hm0⟩
      have hdm := Nat.div_add_mod m (W / N)
      have hmod : m % (W / N) < W / N := Nat.mod_lt m (by omega)
      by_cases hk : m / (W / N) < N - 1
      · refine ⟨m / (W / N), by omega, ?_, ?_⟩
        · unfold seg_x_begin
          have h1 : (W / N) * (m / (W / N)) ≤ m := by omega
          have hz : ((W / N : ℕ) : ℤ) * ((m / (W / N) : ℕ) : ℤ) ≤ (m : ℤ) := by
            exact_mod_cast h1
          rw [hm] at hz
          have hcomm : ((m / (W / N) : ℕ) : ℤ) * ((W / N : ℕ) : ℤ)
              = ((W / N : ℕ) : ℤ) * ((m / (W / N) : ℕ) : ℤ) := mul_comm _ _
          linarith
        · unfold seg_x_end
          rw [if_neg (by omega : ¬ m / (W / N) = N - 1)]
          have h2 : m < (W / N) * (m / (W / N)) + (W / N) := by omega
          have hz : (m : ℤ) < ((W / N : ℕ) : ℤ) * ((m / (W / N) : ℕ) : ℤ)
              + ((W / N : ℕ) : ℤ) := by exact_mod_cast h2
          rw [hm] at hz
          have hexp : (((m / (W / N) : ℕ) : ℤ) + 1) * ((W / N : ℕ) : ℤ)
              = ((m / (W / N) : ℕ) : ℤ) * ((W / N : ℕ) : ℤ) + ((W / N : ℕ) : ℤ) := by ring
          have hcomm : ((m / (W / N) : ℕ) : ℤ) * ((W / N : ℕ) : ℤ)
              = ((W / N : ℕ) : ℤ) * ((m / (W / N) : ℕ) : ℤ) := mul_comm _ _
          linarith
      · refine ⟨N - 1, by omega, ?_, ?_⟩
        · unfold seg_x_begin
          have hk1 : N - 1 ≤ m / (W / N) := by omega
          have h1 : (N - 1) * (W / N) ≤ (m / (W / N)) * (W / N) :=
            Nat.mul_le_mul_right _ hk1
          have h3 : (N - 1) * (W / N) ≤ m := le_trans h1 (Nat.div_mul_le_self m (W / N))
          have hz : (((N - 1 : ℕ)) : ℤ) * ((W / N : ℕ) : ℤ) ≤ (m : ℤ) := by exact_mod_cast h3
          rw [hm] at hz
          linarith
        · unfold seg_x_end
          rw [if_pos rfl]
          exact hhi

/-- Witness for C2 at the code's constants `W = 800`, `N = 8`: the first
segment ends exactly where the second begins. -/
theorem canvas_partition_correct_witness :
    seg_x_end 800 8 0 = seg_x_begin 800 8 1 :=
  (canvas_partition_correct 800 8 (by norm_num) (by norm_num)).1 0 (by norm_num)

end RaytracerCpp
